import Mathlib

/-!
Verification development for the vectorized PromQL execution core
(thanos-io/promql-engine execution operators).

The Go sources are shallowly embedded:

* IEEE 64-bit floats are modelled as rationals extended with a NaN element
  (`Val`). Infinities are outside the modelled value range; every operation
  whose IEEE result would be an infinity or is computed by a transcendental
  library routine (`math.Pow` with non-integer exponent, `math.Atan2`) is
  modelled as NaN. No claim in this development depends on those values.
* `*histogram.FloatHistogram` is external to the repository (it lives in
  prometheus/model/histogram); it is modelled from the spec as a sparse
  bucket list with `Copy`, `Mul`, `Div`, `Add`, `Sub`, `Equals` and
  `Compact` (§3 of the spec).
* Stateful operators become pure functions from their post-initialization
  state and the results pulled from their children to the produced batch
  plus the updated state. Go's `context.Context` is modelled as
  `Option Err`: `some e` is a done context whose `Err()` is `e`.
* Fallible calls return `Except Err`; a `nil, nil` (EOF) return is the
  empty batch.
-/

/-- A Go float64 value: a rational number or NaN.  Arithmetic follows IEEE
semantics restricted to finite values; operations that would produce an
infinity are collapsed to NaN (no claim depends on them). -/
inductive Val where
  | nan : Val
  | q : ℚ → Val
deriving DecidableEq

/-- IEEE addition on the modelled range. -/
def Val.add : Val → Val → Val
  | Val.q a, Val.q b => Val.q (a + b)
  | _, _ => Val.nan

/-- IEEE subtraction on the modelled range. -/
def Val.sub : Val → Val → Val
  | Val.q a, Val.q b => Val.q (a - b)
  | _, _ => Val.nan

/-- IEEE multiplication on the modelled range. -/
def Val.mul : Val → Val → Val
  | Val.q a, Val.q b => Val.q (a * b)
  | _, _ => Val.nan

/-- IEEE division on the modelled range; division by zero yields an
infinity or NaN in IEEE and is collapsed to NaN here. -/
def Val.div : Val → Val → Val
  | Val.q a, Val.q b => if b = 0 then Val.nan else Val.q (a / b)
  | _, _ => Val.nan

/-- Modelled from the spec: `math.Pow` is external to the repository.
Integer exponents are computed exactly; other cases (including the IEEE
special cases for infinities and `pow(1, NaN)`) fall outside the modelled
range and yield NaN.  No claim depends on this function's values. -/
def Val.pow : Val → Val → Val
  | Val.q a, Val.q b => if b.den = 1 then Val.q (a ^ b.num) else Val.nan
  | _, _ => Val.nan

/-- Modelled from the spec: `math.Mod` (fmod) is external to the
repository; computed as `a - b * trunc(a / b)` on the modelled range. -/
def Val.fmod : Val → Val → Val
  | Val.q a, Val.q b =>
      if b = 0 then Val.nan else Val.q (a - b * (Rat.floor (|a| / |b|) * (if (a / b) < 0 then -1 else 1)))
  | _, _ => Val.nan

/-- Modelled from the spec: `math.Atan2` is external to the repository and
transcendental; it is collapsed to NaN.  No claim depends on its values. -/
def Val.atan2 : Val → Val → Val
  | _, _ => Val.nan

/-- IEEE `math.Floor`; `floor(NaN) = NaN`. -/
def Val.floor : Val → Val
  | Val.q a => Val.q (Rat.floor a)
  | Val.nan => Val.nan

/-- IEEE `==` as a boolean: false whenever either side is NaN. -/
def Val.eqb : Val → Val → Bool
  | Val.q a, Val.q b => a == b
  | _, _ => false

/-- IEEE `!=` as a boolean: true whenever either side is NaN. -/
def Val.neb : Val → Val → Bool
  | Val.q a, Val.q b => a != b
  | _, _ => true

/-- IEEE `>` as a boolean. -/
def Val.gtb : Val → Val → Bool
  | Val.q a, Val.q b => decide (b < a)
  | _, _ => false

/-- IEEE `<` as a boolean. -/
def Val.ltb : Val → Val → Bool
  | Val.q a, Val.q b => decide (a < b)
  | _, _ => false

/-- IEEE `>=` as a boolean. -/
def Val.geb : Val → Val → Bool
  | Val.q a, Val.q b => decide (b ≤ a)
  | _, _ => false

/-- IEEE `<=` as a boolean. -/
def Val.leb : Val → Val → Bool
  | Val.q a, Val.q b => decide (a ≤ b)
  | _, _ => false

/-- Modelled from the spec (§3 FloatHistogram): the sparse native histogram
of prometheus/model/histogram, which is external to the repository.  It
carries `Sum`, `Count`, a custom-vs-exponential schema discriminator and
sparse buckets; it supports value-semantic `Copy`, `Mul`, `Div`, `Add`,
`Sub`, `Equals` and `Compact`. -/
structure Hist where
  custom : Bool
  sum : Val
  count : Val
  buckets : List (Int × Val)
deriving DecidableEq

/-- Modelled from the spec: `FloatHistogram.Copy` has value semantics; in a
pure embedding it is the identity. -/
def Hist.copy (h : Hist) : Hist := h

/-- Modelled from the spec: `FloatHistogram.Mul` multiplies `Sum`, `Count`
and every bucket by the scalar. -/
def Hist.mulScalar (h : Hist) (s : Val) : Hist :=
  { h with sum := Val.mul h.sum s, count := Val.mul h.count s,
           buckets := h.buckets.map (fun b => (b.1, Val.mul b.2 s)) }

/-- Modelled from the spec: `FloatHistogram.Div` divides `Sum`, `Count` and
every bucket by the scalar. -/
def Hist.divScalar (h : Hist) (s : Val) : Hist :=
  { h with sum := Val.div h.sum s, count := Val.div h.count s,
           buckets := h.buckets.map (fun b => (b.1, Val.div b.2 s)) }

/-- Modelled from the spec: `FloatHistogram.Compact(0)` drops empty
buckets, canonicalizing the sparse representation. -/
def Hist.compact (h : Hist) : Hist :=
  { h with buckets := h.buckets.filter (fun b => !(b.2 == Val.q 0)) }

/-- Modelled from the spec: `FloatHistogram.Equals` is value equality of
the representation. -/
def Hist.equals (a b : Hist) : Bool := a == b

/-- Adds one bucket count into a sparse bucket list, keyed by bucket index. -/
def bucketAdd : List (Int × Val) → Int → Val → List (Int × Val)
  | [], k, v => [(k, v)]
  | (k2, v2) :: rest, k, v =>
      if k = k2 then (k2, Val.add v2 v) :: rest else (k2, v2) :: bucketAdd rest k v

/-- Pointwise sum of two sparse bucket lists. -/
def bucketsAdd (a b : List (Int × Val)) : List (Int × Val) :=
  b.foldl (fun acc kv => bucketAdd acc kv.1 kv.2) a

/-- Modelled from the spec: `FloatHistogram.Add`; mixing custom-bucket and
exponential histograms is the arithmetic error that bubbles up as a
non-fatal annotation (§4.6.3, §7). -/
def Hist.addH (a b : Hist) : Except Unit Hist :=
  if a.custom != b.custom then Except.error ()
  else Except.ok { custom := a.custom, sum := Val.add a.sum b.sum,
                   count := Val.add a.count b.count,
                   buckets := bucketsAdd a.buckets b.buckets }

/-- Negates every count of a histogram, used to express `Sub` via `Add`. -/
def Hist.negH (h : Hist) : Hist :=
  { h with sum := Val.sub (Val.q 0) h.sum, count := Val.sub (Val.q 0) h.count,
           buckets := h.buckets.map (fun b => (b.1, Val.sub (Val.q 0) b.2)) }

/-- Modelled from the spec: `FloatHistogram.Sub`. -/
def Hist.subH (a b : Hist) : Except Unit Hist := Hist.addH a b.negH

/-- A step vector: one evaluation timestamp with parallel arrays of
sample IDs/values and histogram IDs/histograms (spec §3).  Histogram
entries are Go pointers and may be nil, hence `Option Hist`. -/
structure StepVector where
  T : Int
  sampleIDs : List Nat
  samples : List Val
  histogramIDs : List Nat
  histograms : List (Option Hist)
deriving DecidableEq

/-- Modelled from the spec: `model.StepVector.AppendSample` of the engine's
`execution/model` package (not among the provided sources); the spec
describes the step vector as parallel arrays, so append pushes onto both. -/
def StepVector.appendSample (sv : StepVector) (id : Nat) (v : Val) : StepVector :=
  { sv with sampleIDs := sv.sampleIDs ++ [id], samples := sv.samples ++ [v] }

/-- Modelled from the spec: `model.StepVector.AppendHistogram`, analogous
to `AppendSample` on the histogram arrays. -/
def StepVector.appendHistogram (sv : StepVector) (id : Nat) (h : Option Hist) : StepVector :=
  { sv with histogramIDs := sv.histogramIDs ++ [id], histograms := sv.histograms ++ [h] }

/-- A fresh step vector for a timestamp, as handed out by the vector pool. -/
def emptyStep (ts : Int) : StepVector := ⟨ts, [], [], [], []⟩

/-- The histogram entries of a step, as (output series ID, histogram) pairs. -/
def histPairs (sv : StepVector) : List (Nat × Option Hist) :=
  sv.histogramIDs.zip sv.histograms

/-- Which input of a binary operation an error is attributed to. -/
inductive Side where
  | lhs | rhs
deriving DecidableEq

/-- The fatal error kinds of the core (spec §7), plus the context errors. -/
inductive Err where
  | cancelled
  | deadlineExceeded
  | duplicateLabelSet
  | manyToMany (side : Side) (originalSampleId duplicateSampleId : Nat)
  | implicitManyToOne
  | invalidCard
  | contractViolation
deriving DecidableEq

/-- A Go context at the moment it is inspected: `none` is live, `some e`
is a done context whose `Err()` returns `e`. -/
def Ctx : Type := Option Err

/-- The non-fatal annotation kinds pushed to the warnings sink (spec §7). -/
inductive Ann where
  | incompatibleTypesInBinOp
  | histogramArithmetic
deriving DecidableEq

/-- The PromQL binary operator tokens handled by the binary operators. -/
inductive Op where
  | add | sub | mul | div | pow | mod
  | eqlc | neq | gtr | lss | gte | lte
  | atan2
  | land | lor | lunless
deriving DecidableEq

/-- Whether the operator is one of the logical set operators. -/
def Op.isLogical : Op → Bool
  | Op.land | Op.lor | Op.lunless => true
  | _ => false

/-- `parser.VectorMatching.Card`. -/
inductive Card where
  | oneToOne | manyToOne | oneToMany | manyToMany
deriving DecidableEq

/-- The shared join bucket of `execution/binary` (`joinBucket` in the
source): timestamps `ats`/`bts` plus the low-card side's sample/histogram
ID and value last stored at `ats`. -/
structure JoinBucket where
  ats : Int
  bts : Int
  sid : Nat
  hid : Nat
  val : Val
  hval : Option Hist
deriving DecidableEq

/-- A fresh join bucket (`joinBucket{ats: -1, bts: -1}` in the source). -/
def initBucket : JoinBucket := ⟨-1, -1, 0, 0, Val.q 0, none⟩

/-- The arena of join buckets, keyed by join signature.  In the source the
buckets live in `joinBucketsByHash`, a map from the 64-bit signature to a
shared `*joinBucket`; the embedding keys the store by the signature
directly, which renames bucket identities bijectively. -/
def Buckets : Type := Nat → JoinBucket

/-- The bucket store with every signature mapped to a fresh bucket. -/
def initBuckets : Buckets := fun _ => initBucket

/-- Pointwise update of the bucket store. -/
def updateBk (bk : Buckets) (k : Nat) (jb : JoinBucket) : Buckets :=
  fun x => if x = k then jb else bk x

/-- The result quadruple of `vectorElemBinop`: float value, histogram
value, the keep flag, and the non-fatal annotation if any. -/
structure BinopRes where
  f : Val
  h : Option Hist
  keep : Bool
  err : Option Ann
deriving DecidableEq

/-- `vectorElemBinop` from `execution/binary`: the scalar binary kernel
over a float/histogram pair of operands.  `none` models the source's
crash on an operator token outside the handled matrix. -/
def vectorElemBinop (op : Op) (lhs rhs : Val) (hlhs hrhs : Option Hist) : Option BinopRes :=
  match hlhs, hrhs with
  | none, none =>
    match op with
    | Op.add => some ⟨Val.add lhs rhs, none, true, none⟩
    | Op.sub => some ⟨Val.sub lhs rhs, none, true, none⟩
    | Op.mul => some ⟨Val.mul lhs rhs, none, true, none⟩
    | Op.div => some ⟨Val.div lhs rhs, none, true, none⟩
    | Op.pow => some ⟨Val.pow lhs rhs, none, true, none⟩
    | Op.mod => some ⟨Val.fmod lhs rhs, none, true, none⟩
    | Op.eqlc => some ⟨lhs, none, Val.eqb lhs rhs, none⟩
    | Op.neq => some ⟨lhs, none, Val.neb lhs rhs, none⟩
    | Op.gtr => some ⟨lhs, none, Val.gtb lhs rhs, none⟩
    | Op.lss => some ⟨lhs, none, Val.ltb lhs rhs, none⟩
    | Op.gte => some ⟨lhs, none, Val.geb lhs rhs, none⟩
    | Op.lte => some ⟨lhs, none, Val.leb lhs rhs, none⟩
    | Op.atan2 => some ⟨Val.atan2 lhs rhs, none, true, none⟩
    | _ => none
  | none, some hr =>
    match op with
    | Op.mul => some ⟨Val.q 0, some ((hr.copy.mulScalar lhs).compact), true, none⟩
    | Op.add | Op.sub | Op.div | Op.pow | Op.mod | Op.eqlc | Op.neq
    | Op.gtr | Op.lss | Op.gte | Op.lte | Op.atan2 =>
        some ⟨Val.q 0, none, false, some Ann.incompatibleTypesInBinOp⟩
    | _ => none
  | some hl, none =>
    match op with
    | Op.mul => some ⟨Val.q 0, some ((hl.copy.mulScalar rhs).compact), true, none⟩
    | Op.div => some ⟨Val.q 0, some ((hl.copy.divScalar rhs).compact), true, none⟩
    | Op.add | Op.sub | Op.pow | Op.mod | Op.eqlc | Op.neq
    | Op.gtr | Op.lss | Op.gte | Op.lte | Op.atan2 =>
        some ⟨Val.q 0, none, false, some Ann.incompatibleTypesInBinOp⟩
    | _ => none
  | some hl, some hr =>
    match op with
    | Op.add =>
      match hl.copy.addH hr with
      | Except.error _ => some ⟨Val.q 0, none, false, some Ann.histogramArithmetic⟩
      | Except.ok res => some ⟨Val.q 0, some res.compact, true, none⟩
    | Op.sub =>
      match hl.copy.subH hr with
      | Except.error _ => some ⟨Val.q 0, none, false, some Ann.histogramArithmetic⟩
      | Except.ok res => some ⟨Val.q 0, some res.compact, true, none⟩
    | Op.eqlc => some ⟨Val.q 0, some hl, hl.equals hr, none⟩
    | Op.neq => some ⟨Val.q 0, some hl, !(hl.equals hr), none⟩
    | Op.mul | Op.div | Op.pow | Op.mod | Op.gtr | Op.lss | Op.gte | Op.lte | Op.atan2 =>
        some ⟨Val.q 0, none, false, some Ann.incompatibleTypesInBinOp⟩
    | _ => none

/-- `cantorPairing` from `execution/binary`. -/
def cantorPairing (hc lc : Nat) : Nat := (hc + lc) * (hc + lc + 1) / 2 + lc

/-- The post-initialization state of the vector-vector binary operator:
operator token, matching cardinality, the bool modifier, the two
series-ID-to-signature maps built by `initJoinTables` (`lcJoinBuckets` /
`hcJoinBuckets`, here as maps into the signature-keyed bucket store) and
the output map from Cantor pair IDs to output series IDs. -/
structure BinCfg where
  op : Op
  card : Card
  returnBool : Bool
  lcJoin : Nat → Nat
  hcJoin : Nat → Nat
  outputMap : Nat → Nat

/-- `vectorOperator.outputSeriesID`. -/
def outputSeriesID (cfg : BinCfg) (hc lc : Nat) : Nat :=
  cfg.outputMap (cantorPairing hc lc)

/-- `vectorOperator.computeBinaryPairing`: swaps the operand order under
one-to-many cardinality, preserving non-commutative operators. -/
def computeBinaryPairing (cfg : BinCfg) (lhs rhs : Val) (hlhs hrhs : Option Hist) : Option BinopRes :=
  if cfg.card = Card.oneToMany then vectorElemBinop cfg.op rhs lhs hrhs hlhs
  else vectorElemBinop cfg.op lhs rhs hlhs hrhs

/-- `execBinaryAnd`: mark the rhs (low-card) buckets with `sid` and `ats`,
then emit every lhs sample whose bucket was marked at this timestamp. -/
def execBinaryAnd (cfg : BinCfg) (bk : Buckets) (lhs rhs : StepVector) : StepVector × Buckets :=
  let ts := lhs.T
  let bk1 := rhs.sampleIDs.foldl
    (fun b sid => updateBk b (cfg.lcJoin sid) { b (cfg.lcJoin sid) with sid := sid, ats := ts }) bk
  let step := (lhs.sampleIDs.zip lhs.samples).foldl
    (fun s p =>
      if (bk1 (cfg.hcJoin p.1)).ats = ts then
        s.appendSample (outputSeriesID cfg (p.1 + 1) ((bk1 (cfg.hcJoin p.1)).sid + 1)) p.2
      else s)
    (emptyStep ts)
  (step, bk1)

/-- `execBinaryOr`: emit every lhs sample (marking its bucket), then every
rhs sample whose bucket was not marked at this timestamp. -/
def execBinaryOr (cfg : BinCfg) (bk : Buckets) (lhs rhs : StepVector) : StepVector × Buckets :=
  let ts := lhs.T
  let acc := (lhs.sampleIDs.zip lhs.samples).foldl
    (fun (a : StepVector × Buckets) p =>
      (a.1.appendSample (outputSeriesID cfg (p.1 + 1) 0) p.2,
       updateBk a.2 (cfg.hcJoin p.1) { a.2 (cfg.hcJoin p.1) with ats := ts }))
    (emptyStep ts, bk)
  let step := (rhs.sampleIDs.zip rhs.samples).foldl
    (fun s p =>
      if (acc.2 (cfg.lcJoin p.1)).ats ≠ ts then
        s.appendSample (outputSeriesID cfg 0 (p.1 + 1)) p.2
      else s)
    acc.1
  (step, acc.2)

/-- `execBinaryUnless`: mark the rhs buckets, then emit every lhs sample
whose bucket was not marked at this timestamp. -/
def execBinaryUnless (cfg : BinCfg) (bk : Buckets) (lhs rhs : StepVector) : StepVector × Buckets :=
  let ts := lhs.T
  let bk1 := rhs.sampleIDs.foldl
    (fun b sid => updateBk b (cfg.lcJoin sid) { b (cfg.lcJoin sid) with ats := ts }) bk
  let step := (lhs.sampleIDs.zip lhs.samples).foldl
    (fun s p =>
      if (bk1 (cfg.hcJoin p.1)).ats ≠ ts then
        s.appendSample (outputSeriesID cfg (p.1 + 1) 0) p.2
      else s)
    (emptyStep ts)
  (step, bk1)

/-- The side the low-cardinality operand came from: `rhs` by default,
`lhs` under one-to-many cardinality
(`newManyToManyMatchErrorOnLowCardSide` in the source). -/
def lcSideOf (card : Card) : Side :=
  if card = Card.oneToMany then Side.lhs else Side.rhs

/-- `newManyToManyMatchErrorOnLowCardSide`, carrying the original and
duplicate low-card series IDs. -/
def mkManyToManyErr (card : Card) (originalSampleId duplicateSampleId : Nat) : Err :=
  Err.manyToMany (lcSideOf card) originalSampleId duplicateSampleId

/-- The `(hcs, lcs)` partition of `execBinaryArithmetic`: `none` is the
defensive invalid-cardinality error. -/
def hcLcOf (card : Card) (lhs rhs : StepVector) : Option (StepVector × StepVector) :=
  match card with
  | Card.manyToOne | Card.oneToOne => some (lhs, rhs)
  | Card.oneToMany => some (rhs, lhs)
  | Card.manyToMany => none

/-- The low-card sample loop of `execBinaryArithmetic`: a bucket already
stamped at this timestamp is a many-to-many match on the low-card side;
otherwise store `{sid, val, ats = ts}`. -/
def populateLcSamples (cfg : BinCfg) (ts : Int) : Buckets → List (Nat × Val) → Except Err Buckets
  | bk, [] => Except.ok bk
  | bk, (sid, v) :: rest =>
    let jp := bk (cfg.lcJoin sid)
    if jp.ats = ts then Except.error (mkManyToManyErr cfg.card jp.sid sid)
    else populateLcSamples cfg ts
      (updateBk bk (cfg.lcJoin sid) { jp with sid := sid, val := v, ats := ts }) rest

/-- The low-card histogram loop of `execBinaryArithmetic`, storing
`{hid, hval, ats = ts}`. -/
def populateLcHists (cfg : BinCfg) (ts : Int) : Buckets → List (Nat × Option Hist) → Except Err Buckets
  | bk, [] => Except.ok bk
  | bk, (hid, hv) :: rest =>
    let jp := bk (cfg.lcJoin hid)
    if jp.ats = ts then Except.error (mkManyToManyErr cfg.card jp.sid hid)
    else populateLcHists cfg ts
      (updateBk bk (cfg.lcJoin hid) { jp with hid := hid, hval := hv, ats := ts }) rest

/-- Both low-card loops in source order: samples, then histograms. -/
def populateLc (cfg : BinCfg) (ts : Int) (bk : Buckets) (lcs : StepVector) : Except Err Buckets :=
  match populateLcSamples cfg ts bk (lcs.sampleIDs.zip lcs.samples) with
  | Except.error e => Except.error e
  | Except.ok bk1 => populateLcHists cfg ts bk1 (lcs.histogramIDs.zip lcs.histograms)

/-- The high-card sample loop of `execBinaryArithmetic`: skip unmatched
buckets, fail on an implicit many-to-one match under one-to-one
cardinality, stamp `bts`, apply the kernel and emit per `returnBool`. -/
def execHcSamples (cfg : BinCfg) (ts : Int) : Buckets → StepVector → List (Nat × Val) → Except Err (StepVector × Buckets)
  | bk, step, [] => Except.ok (step, bk)
  | bk, step, (sid, v) :: rest =>
    let jp := bk (cfg.hcJoin sid)
    if jp.ats ≠ ts then execHcSamples cfg ts bk step rest
    else if jp.bts = ts ∧ cfg.card = Card.oneToOne then Except.error Err.implicitManyToOne
    else
      let bk1 := updateBk bk (cfg.hcJoin sid) { jp with bts := ts }
      match computeBinaryPairing cfg v jp.val none none with
      | none => Except.error Err.contractViolation
      | some r =>
        let step1 :=
          if cfg.returnBool then
            step.appendSample (outputSeriesID cfg (sid + 1) (jp.sid + 1))
              (if r.keep then Val.q 1 else Val.q 0)
          else if r.keep then
            step.appendSample (outputSeriesID cfg (sid + 1) (jp.sid + 1)) r.f
          else step
        execHcSamples cfg ts bk1 step1 rest

/-- The high-card histogram loop of `execBinaryArithmetic`: mirror logic,
emitting the kernel's histogram component unconditionally. -/
def execHcHists (cfg : BinCfg) (ts : Int) : Buckets → StepVector → List (Nat × Option Hist) → Except Err (StepVector × Buckets)
  | bk, step, [] => Except.ok (step, bk)
  | bk, step, (hid, hv) :: rest =>
    let jp := bk (cfg.hcJoin hid)
    if jp.ats ≠ ts then execHcHists cfg ts bk step rest
    else if jp.bts = ts ∧ cfg.card = Card.oneToOne then Except.error Err.implicitManyToOne
    else
      let bk1 := updateBk bk (cfg.hcJoin hid) { jp with bts := ts }
      match computeBinaryPairing cfg (Val.q 0) (Val.q 0) hv jp.hval with
      | none => Except.error Err.contractViolation
      | some r =>
        execHcHists cfg ts bk1
          (step.appendHistogram (outputSeriesID cfg (hid + 1) (jp.sid + 1)) r.h) rest

/-- `execBinaryArithmetic` from `execution/binary`: partition by
cardinality, shortcut when the high-card side has no samples, populate the
low-card buckets, then run the high-card sample and histogram loops. -/
def execBinaryArithmetic (cfg : BinCfg) (bk : Buckets) (lhs rhs : StepVector) : Except Err (StepVector × Buckets) :=
  let ts := lhs.T
  match hcLcOf cfg.card lhs rhs with
  | none => Except.error Err.invalidCard
  | some (hcs, lcs) =>
    if hcs.samples = [] then Except.ok (emptyStep ts, bk)
    else
      match populateLc cfg ts bk lcs with
      | Except.error e => Except.error e
      | Except.ok bk1 =>
        match execHcSamples cfg ts bk1 (emptyStep ts) (hcs.sampleIDs.zip hcs.samples) with
        | Except.error e => Except.error e
        | Except.ok (step1, bk2) =>
          execHcHists cfg ts bk2 step1 (hcs.histogramIDs.zip hcs.histograms)

/-- `vectorOperator.execBinaryOperation`: dispatch on the operator token. -/
def execBinaryOperation (cfg : BinCfg) (bk : Buckets) (lhs rhs : StepVector) : Except Err (StepVector × Buckets) :=
  match cfg.op with
  | Op.land => Except.ok (execBinaryAnd cfg bk lhs rhs)
  | Op.lor => Except.ok (execBinaryOr cfg bk lhs rhs)
  | Op.lunless => Except.ok (execBinaryUnless cfg bk lhs rhs)
  | _ => execBinaryArithmetic cfg bk lhs rhs

/-- The step loop of `vectorOperator.Next`: steps are paired by batch
index, surplus lhs steps beyond the rhs batch length are discarded. -/
def execSteps (cfg : BinCfg) : Buckets → List (StepVector × StepVector) → Except Err (List StepVector × Buckets)
  | bk, [] => Except.ok ([], bk)
  | bk, (l, r) :: rest =>
    match execBinaryOperation cfg bk l r with
    | Except.error e => Except.error e
    | Except.ok (s, bk1) =>
      match execSteps cfg bk1 rest with
      | Except.error e => Except.error e
      | Except.ok (out, bk2) => Except.ok (s :: out, bk2)

/-- `vectorOperator.Next`, as a function of the already-pulled child
results: context check at entry, rhs error precedence, end-of-stream once
either child batch is empty, otherwise the paired step loop. -/
def vectorNext (cfg : BinCfg) (bk : Buckets) (ctx : Ctx) (lres rres : Except Err (List StepVector)) : Except Err (List StepVector × Buckets) :=
  match ctx with
  | some e => Except.error e
  | none =>
    match rres with
    | Except.error re => Except.error re
    | Except.ok rhs =>
      match lres with
      | Except.error le => Except.error le
      | Except.ok lhs =>
        if lhs.isEmpty || rhs.isEmpty then Except.ok ([], bk)
        else execSteps cfg bk (lhs.zip rhs)

/-- The collision-pair recording of `duplicateLabelCheckOperator.init`:
walking the child's series, a label-set hash seen before at index `j`
records the pair `(a = i, b = j)`.  Series are represented by their
64-bit label-set hashes (`labels.Labels.Hash` is external). -/
def dupPairsAux (m : List (Nat × Nat)) (i : Nat) : List Nat → List (Nat × Nat)
  | [] => []
  | h :: rest =>
    match m.lookup h with
    | some j => (i, j) :: dupPairsAux m (i + 1) rest
    | none => dupPairsAux ((h, i) :: m) (i + 1) rest

/-- The recorded collision pairs for a series hash list. -/
def dupPairs (hashes : List Nat) : List (Nat × Nat) :=
  dupPairsAux [] 0 hashes

/-- The per-batch-position bit `2 << i` on a Go `uint64`: it overflows to
zero for positions 63 and above. -/
def stepMask (i : Nat) : Nat := (2 <<< i) % 2 ^ 64

/-- One step of the mask accumulation: `c[sid] |= 2 << i` for every
sample ID of the step at batch position `i`. -/
def applyStep (c : Nat → Nat) (i : Nat) : List Nat → (Nat → Nat)
  | [] => c
  | sid :: rest => applyStep (fun x => if x = sid then c sid ||| stepMask i else c x) i rest

/-- The mask accumulation over a batch starting at position `i`. -/
def accumulate (c : Nat → Nat) (i : Nat) : List StepVector → (Nat → Nat)
  | [] => c
  | sv :: rest => accumulate (applyStep c i sv.sampleIDs) (i + 1) rest

/-- The reset loop at the head of `duplicateLabelCheckOperator.Next`:
`c[a] = c[b] = 0` for every recorded pair. -/
def resetPairs (c : Nat → Nat) : List (Nat × Nat) → (Nat → Nat)
  | [] => c
  | ab :: rest => resetPairs (fun x => if x = ab.1 ∨ x = ab.2 then 0 else c x) rest

/-- `duplicateLabelCheckOperator.Next`, as a function of the recorded
series hashes, the persistent mask vector `c`, the context and the pulled
child batch: reset the pair entries, accumulate `2 << i` per batch
position, and fail with `DuplicateLabelSet` when some pair's masks
intersect; otherwise forward the batch unchanged. -/
def dupNext (hashes : List Nat) (c : Nat → Nat) (ctx : Ctx) (childRes : Except Err (List StepVector)) : Except Err (List StepVector × (Nat → Nat)) :=
  match ctx with
  | some e => Except.error e
  | none =>
    match childRes with
    | Except.error e => Except.error e
    | Except.ok inp =>
      match inp with
      | [] => Except.ok ([], c)
      | _ :: _ =>
        let p := dupPairs hashes
        if p.isEmpty then Except.ok (inp, c)
        else
          let c1 := accumulate (resetPairs c p) 0 inp
          if p.any (fun ab => 0 < c1 ab.1 &&& c1 ab.2) then Except.error Err.duplicateLabelSet
          else Except.ok (inp, c1)

/-- `scalarOperator.Series` of `execution/function`: returns `nil, nil`
without inspecting the context.  Label sets are represented by their
hashes. -/
def fnScalarSeries (_ : Ctx) : Except Err (List Nat) := Except.ok []

/-- `scalarOperator.Next` of `execution/function`, as a function of the
pulled child batch: per step, the single sample's value when the step has
exactly one sample and NaN otherwise, always at output series ID 0;
histograms are dropped. -/
def fnScalarNext (ctx : Ctx) (childRes : Except Err (List StepVector)) : Except Err (List StepVector) :=
  match ctx with
  | some e => Except.error e
  | none =>
    match childRes with
    | Except.error e => Except.error e
    | Except.ok inp =>
      if inp.isEmpty then Except.ok []
      else Except.ok (inp.map (fun v =>
        if v.samples.length != 1 then ⟨v.T, [0], [Val.nan], [], []⟩
        else ⟨v.T, [0], [v.samples.getD 0 Val.nan], [], []⟩))

/-- `absentOperator.Series`: returns the synthesized series without
inspecting the context (the series list, built once by `loadSeries` from
the selector's matchers, is taken as a parameter). -/
def absentSeries (_ : Ctx) (series : List Nat) : Except Err (List Nat) :=
  Except.ok series

/-- `absentOperator.Next`, as a function of the pulled child batch: per
step, emit the single sample `(ID 0, value 1)` exactly when the step has
no samples and no histograms. -/
def absentNext (ctx : Ctx) (childRes : Except Err (List StepVector)) : Except Err (List StepVector) :=
  match ctx with
  | some e => Except.error e
  | none =>
    match childRes with
    | Except.error e => Except.error e
    | Except.ok inp =>
      if inp.isEmpty then Except.ok []
      else Except.ok (inp.map (fun v =>
        if v.samples.isEmpty && v.histograms.isEmpty then ⟨v.T, [0], [Val.q 1], [], []⟩
        else ⟨v.T, [], [], [], []⟩))

/-- The post-construction state of the vector-scalar binary operator of
`execution/binary`: the operand accessors, kernels and flags stored in the
operator struct (`getOperands`, `operandValIdx`, `floatOp`, `histOp`,
`returnBool`, `bothScalars`). -/
structure VsCfg where
  getOperands : StepVector → Nat → Val → Val × Val
  operandValIdx : Nat
  floatOp : (Val × Val) → Nat → Val × Bool
  histOp : Option Hist → Val → Option Hist
  returnBool : Bool
  bothScalars : Bool

/-- The per-step sample loop of the vector-scalar `Next`. -/
def vsStepSamples (cfg : VsCfg) (v : StepVector) (scalarVal : Val) : StepVector :=
  (List.range v.samples.length).foldl
    (fun step i =>
      let operands := cfg.getOperands v i scalarVal
      let r := cfg.floatOp operands cfg.operandValIdx
      if cfg.returnBool then
        if cfg.bothScalars then step.appendSample (v.sampleIDs.getD i 0) r.1
        else step.appendSample (v.sampleIDs.getD i 0) (if r.2 then Val.q 1 else Val.q 0)
      else if r.2 then step.appendSample (v.sampleIDs.getD i 0) r.1
      else step)
    (emptyStep v.T)

/-- The per-step histogram loop of the vector-scalar `Next`: apply the
histogram-with-float kernel and append non-nil results. -/
def vsStepHists (cfg : VsCfg) (v : StepVector) (scalarVal : Val) (step : StepVector) : StepVector :=
  (List.range v.histogramIDs.length).foldl
    (fun step i =>
      match cfg.histOp (v.histograms.getD i none) scalarVal with
      | some h => step.appendHistogram (v.histogramIDs.getD i 0) (some h)
      | none => step)
    step

/-- `scalarOperator.Next` of `execution/binary` (the vector-scalar binary
operator), as a function of the pulled vector-child and scalar-child
batches: the scalar value of a step is its first sample, NaN when
missing. -/
def vsScalarNext (cfg : VsCfg) (ctx : Ctx) (nextRes scalarRes : Except Err (List StepVector)) : Except Err (List StepVector) :=
  match ctx with
  | some e => Except.error e
  | none =>
    match nextRes with
    | Except.error e => Except.error e
    | Except.ok inp =>
      match inp with
      | [] => Except.ok []
      | _ :: _ =>
        match scalarRes with
        | Except.error e => Except.error e
        | Except.ok scalarIn =>
          Except.ok ((List.range inp.length).map (fun vi =>
            let v := inp.getD vi (emptyStep 0)
            let scalarVal :=
              if vi < scalarIn.length ∧ 0 < (scalarIn.getD vi (emptyStep 0)).samples.length
              then (scalarIn.getD vi (emptyStep 0)).samples.getD 0 Val.nan
              else Val.nan
            vsStepHists cfg v scalarVal (vsStepSamples cfg v scalarVal)))

/-- The `round` entry of `instantVectorFuncs` in `execution/function`:
histogram inputs and more than one vararg are dropped; otherwise
`floor(f * (1/toNearest) + 0.5) / (1/toNearest)` with `toNearest`
defaulting to 1. -/
def roundFunc (f : Val) (h : Option Hist) (vargs : List Val) : Val × Bool :=
  if h.isSome then (Val.q 0, false)
  else if vargs.length > 1 then (Val.q 0, false)
  else
    let toNearest := vargs.getD 0 (Val.q 1)
    let toNearestInverse := Val.div (Val.q 1) toNearest
    (Val.div (Val.floor (Val.add (Val.mul f toNearestInverse) (Val.q (1/2)))) toNearestInverse, true)

/-- C4 (amended): every `Next` checks the supplied context at entry and
returns the context's error when the context is done; the `Series`
implementations of the function-package scalar operator and the absent
operator do not consult the context. -/
theorem next_checks_context (e : Err) (hashes : List Nat) (c : Nat → Nat)
    (res sres lres rres : Except Err (List StepVector)) (cfg : BinCfg) (bk : Buckets)
    (vcfg : VsCfg) (s : List Nat) :
    dupNext hashes c (some e) res = Except.error e ∧
    fnScalarNext (some e) res = Except.error e ∧
    absentNext (some e) res = Except.error e ∧
    vectorNext cfg bk (some e) lres rres = Except.error e ∧
    vsScalarNext vcfg (some e) res sres = Except.error e ∧
    fnScalarSeries (some e) = Except.ok [] ∧
    absentSeries (some e) s = Except.ok s :=
  ⟨rfl, rfl, rfl, rfl, rfl, rfl, rfl⟩

/-- C4 is false as stated: `scalarOperator.Series` of `execution/function`
returns `nil, nil` on a cancelled context instead of the context's error. -/
theorem series_skips_context_check :
    fnScalarSeries (some Err.cancelled) = Except.ok [] ∧
    (Except.ok ([] : List Nat) : Except Err (List Nat)) ≠ Except.error Err.cancelled :=
  ⟨rfl, fun h => Except.noConfusion h⟩

/-- C5: the scalar operator's `Series` is empty and, per input step, `Next`
emits exactly one step with the same timestamp carrying `(ID 0, value)`
when the step has exactly one sample and `(ID 0, NaN)` otherwise, never
propagating histograms. -/
theorem scalar_operator_spec (inp : List StepVector) (hne : inp ≠ []) :
    fnScalarSeries none = Except.ok [] ∧
    fnScalarNext none (Except.ok inp) =
      Except.ok (inp.map (fun v =>
        ⟨v.T, [0],
         [if v.samples.length = 1 then v.samples.getD 0 Val.nan else Val.nan],
         [], []⟩)) := by
  refine ⟨rfl, ?_⟩
  cases inp with
  | nil => exact absurd rfl hne
  | cons v rest =>
    show Except.ok (List.map _ (v :: rest)) = _
    refine congrArg Except.ok (List.map_congr_left ?_)
    intro a _
    by_cases hl : a.samples.length = 1 <;> simp [hl]

/-- Witness for C5 at a two-step batch: a one-sample step projects its
sample, a two-sample step projects NaN. -/
theorem scalar_operator_spec_witness :
    ([⟨7, [4], [Val.q 3], [], []⟩, ⟨8, [4, 5], [Val.q 1, Val.q 2], [], []⟩] : List StepVector) ≠ [] ∧
    (fnScalarSeries none = Except.ok [] ∧
     fnScalarNext none (Except.ok [⟨7, [4], [Val.q 3], [], []⟩, ⟨8, [4, 5], [Val.q 1, Val.q 2], [], []⟩]) =
       Except.ok (([⟨7, [4], [Val.q 3], [], []⟩, ⟨8, [4, 5], [Val.q 1, Val.q 2], [], []⟩] : List StepVector).map (fun v =>
         ⟨v.T, [0],
          [if v.samples.length = 1 then v.samples.getD 0 Val.nan else Val.nan],
          [], []⟩))) :=
  ⟨by decide, scalar_operator_spec _ (by decide)⟩

/-- C6: the absent operator emits the single sample `(ID 0, value 1)` at a
step exactly when that step has no samples and no histograms, and emits
nothing at the step otherwise. -/
theorem absent_emits_iff_empty (inp : List StepVector) (hne : inp ≠ []) :
    absentNext none (Except.ok inp) =
      Except.ok (inp.map (fun v =>
        if v.samples = [] ∧ v.histograms = [] then ⟨v.T, [0], [Val.q 1], [], []⟩
        else ⟨v.T, [], [], [], []⟩)) := by
  cases inp with
  | nil => exact absurd rfl hne
  | cons v rest =>
    show Except.ok (List.map _ (v :: rest)) = _
    refine congrArg Except.ok (List.map_congr_left ?_)
    intro a _
    by_cases hs : a.samples = [] <;> by_cases hh : a.histograms = [] <;>
      simp [hs, hh]

/-- Witness for C6: an empty step yields `(0, 1)`, a step with a sample
and a step with a histogram yield nothing. -/
theorem absent_emits_iff_empty_witness :
    ([⟨1, [], [], [], []⟩, ⟨2, [0], [Val.q 5], [], []⟩, ⟨3, [], [], [0], [none]⟩] : List StepVector) ≠ [] ∧
    absentNext none (Except.ok [⟨1, [], [], [], []⟩, ⟨2, [0], [Val.q 5], [], []⟩, ⟨3, [], [], [0], [none]⟩]) =
      Except.ok (([⟨1, [], [], [], []⟩, ⟨2, [0], [Val.q 5], [], []⟩, ⟨3, [], [], [0], [none]⟩] : List StepVector).map (fun v =>
        if v.samples = [] ∧ v.histograms = [] then ⟨v.T, [0], [Val.q 1], [], []⟩
        else ⟨v.T, [], [], [], []⟩)) :=
  ⟨by decide, absent_emits_iff_empty _ (by decide)⟩

/-- C7: on two non-nil histogram operands the kernel's `==` (`!=`) returns
keep equal to (the negation of) value-equality of the compacted
histograms — the kernel expects compacted inputs and compares them
directly — and the returned histogram is the left operand. -/
theorem binop_hist_equality (x y : Val) (hl hr : Hist)
    (hcl : hl.compact = hl) (hcr : hr.compact = hr) :
    vectorElemBinop Op.eqlc x y (some hl) (some hr) =
      some ⟨Val.q 0, some hl, hl.compact.equals hr.compact, none⟩ ∧
    vectorElemBinop Op.neq x y (some hl) (some hr) =
      some ⟨Val.q 0, some hl, !(hl.compact.equals hr.compact), none⟩ := by
  rw [hcl, hcr]
  exact ⟨rfl, rfl⟩

/-- Witness for C7 on two concrete compacted histograms. -/
theorem binop_hist_equality_witness :
    (⟨false, Val.q 1, Val.q 2, [(0, Val.q 2)]⟩ : Hist).compact = ⟨false, Val.q 1, Val.q 2, [(0, Val.q 2)]⟩ ∧
    (⟨false, Val.q 3, Val.q 2, [(1, Val.q 2)]⟩ : Hist).compact = ⟨false, Val.q 3, Val.q 2, [(1, Val.q 2)]⟩ ∧
    (vectorElemBinop Op.eqlc (Val.q 0) (Val.q 0)
        (some ⟨false, Val.q 1, Val.q 2, [(0, Val.q 2)]⟩) (some ⟨false, Val.q 3, Val.q 2, [(1, Val.q 2)]⟩) =
      some ⟨Val.q 0, some ⟨false, Val.q 1, Val.q 2, [(0, Val.q 2)]⟩,
        (⟨false, Val.q 1, Val.q 2, [(0, Val.q 2)]⟩ : Hist).compact.equals
          (⟨false, Val.q 3, Val.q 2, [(1, Val.q 2)]⟩ : Hist).compact, none⟩ ∧
     vectorElemBinop Op.neq (Val.q 0) (Val.q 0)
        (some ⟨false, Val.q 1, Val.q 2, [(0, Val.q 2)]⟩) (some ⟨false, Val.q 3, Val.q 2, [(1, Val.q 2)]⟩) =
      some ⟨Val.q 0, some ⟨false, Val.q 1, Val.q 2, [(0, Val.q 2)]⟩,
        !((⟨false, Val.q 1, Val.q 2, [(0, Val.q 2)]⟩ : Hist).compact.equals
          (⟨false, Val.q 3, Val.q 2, [(1, Val.q 2)]⟩ : Hist).compact), none⟩) :=
  ⟨by decide, by decide, binop_hist_equality _ _ _ _ (by decide) (by decide)⟩

/-- C8: with no vararg (the default `toNearest = 1`) `round` maps a float
sample `v` to `floor(v + 0.5)`, and drops every histogram input. -/
theorem round_default_is_floor_half (v : Val) :
    roundFunc v none [] = (Val.floor (Val.add v (Val.q (1/2))), true) ∧
    (∀ h vargs, roundFunc v (some h) vargs = (Val.q 0, false)) := by
  refine ⟨?_, fun h vargs => rfl⟩
  cases v with
  | nan => simp [roundFunc, Val.div, Val.mul, Val.add, Val.floor]
  | q a => simp [roundFunc, Val.div, Val.mul, Val.add, Val.floor]

/-- A step vector with its histogram arrays erased. -/
def stripHists (v : StepVector) : StepVector :=
  ⟨v.T, v.sampleIDs, v.samples, [], []⟩

/-- A fold whose step function never touches the histogram arrays leaves
them unchanged. -/
theorem foldl_preserves_hist {α : Type} (f : StepVector → α → StepVector)
    (hf : ∀ s x, (f s x).histogramIDs = s.histogramIDs ∧ (f s x).histograms = s.histograms) :
    ∀ (l : List α) (s : StepVector),
      (l.foldl f s).histogramIDs = s.histogramIDs ∧ (l.foldl f s).histograms = s.histograms := by
  intro l
  induction l with
  | nil => intro s; exact ⟨rfl, rfl⟩
  | cons x rest ih =>
    intro s
    refine ⟨((ih (f s x)).1).trans (hf s x).1, ((ih (f s x)).2).trans (hf s x).2⟩

/-- The pair-accumulator variant of `foldl_preserves_hist`. -/
theorem foldl_pair_preserves_hist {α : Type} (f : StepVector × Buckets → α → StepVector × Buckets)
    (hf : ∀ s x, (f s x).1.histogramIDs = s.1.histogramIDs ∧ (f s x).1.histograms = s.1.histograms) :
    ∀ (l : List α) (s : StepVector × Buckets),
      (l.foldl f s).1.histogramIDs = s.1.histogramIDs ∧ (l.foldl f s).1.histograms = s.1.histograms := by
  intro l
  induction l with
  | nil => intro s; exact ⟨rfl, rfl⟩
  | cons x rest ih =>
    intro s
    refine ⟨((ih (f s x)).1).trans (hf s x).1, ((ih (f s x)).2).trans (hf s x).2⟩

/-- C9: the logical set operators `and`, `or` and `unless` emit only float
samples — the produced step has empty histogram arrays — and histograms in
either input are never matched on: each operator's result is unchanged
when the inputs' histogram arrays are erased. -/
theorem logical_ops_ignore_histograms (cfg : BinCfg) (bk : Buckets) (lhs rhs : StepVector) :
    ((execBinaryAnd cfg bk lhs rhs).1.histogramIDs = [] ∧
     (execBinaryAnd cfg bk lhs rhs).1.histograms = []) ∧
    ((execBinaryOr cfg bk lhs rhs).1.histogramIDs = [] ∧
     (execBinaryOr cfg bk lhs rhs).1.histograms = []) ∧
    ((execBinaryUnless cfg bk lhs rhs).1.histogramIDs = [] ∧
     (execBinaryUnless cfg bk lhs rhs).1.histograms = []) ∧
    execBinaryAnd cfg bk lhs rhs = execBinaryAnd cfg bk (stripHists lhs) (stripHists rhs) ∧
    execBinaryOr cfg bk lhs rhs = execBinaryOr cfg bk (stripHists lhs) (stripHists rhs) ∧
    execBinaryUnless cfg bk lhs rhs = execBinaryUnless cfg bk (stripHists lhs) (stripHists rhs) := by
  refine ⟨⟨?_, ?_⟩, ⟨?_, ?_⟩, ⟨?_, ?_⟩, rfl, rfl, rfl⟩
  · refine (foldl_preserves_hist _ ?_ _ _).1
    intro s p; dsimp only; split <;> exact ⟨rfl, rfl⟩
  · refine (foldl_preserves_hist _ ?_ _ _).2
    intro s p; dsimp only; split <;> exact ⟨rfl, rfl⟩
  · refine ((foldl_preserves_hist _ ?_ _ _).1).trans ?_
    · intro s p; dsimp only; split <;> exact ⟨rfl, rfl⟩
    · refine (foldl_pair_preserves_hist _ ?_ _ _).1
      intro s p; exact ⟨rfl, rfl⟩
  · refine ((foldl_preserves_hist _ ?_ _ _).2).trans ?_
    · intro s p; dsimp only; split <;> exact ⟨rfl, rfl⟩
    · refine (foldl_pair_preserves_hist _ ?_ _ _).2
      intro s p; exact ⟨rfl, rfl⟩
  · refine (foldl_preserves_hist _ ?_ _ _).1
    intro s p; dsimp only; split <;> exact ⟨rfl, rfl⟩
  · refine (foldl_preserves_hist _ ?_ _ _).2
    intro s p; dsimp only; split <;> exact ⟨rfl, rfl⟩

/-- The step loop produces exactly one output step per paired input step. -/
theorem execSteps_length (cfg : BinCfg) :
    ∀ (pairs : List (StepVector × StepVector)) (bk : Buckets) (out : List StepVector) (bk2 : Buckets),
      execSteps cfg bk pairs = Except.ok (out, bk2) → out.length = pairs.length := by
  intro pairs
  induction pairs with
  | nil =>
    intro bk out bk2 h
    simp only [execSteps, Except.ok.injEq, Prod.mk.injEq] at h
    rw [← h.1]
    rfl
  | cons p rest ih =>
    intro bk out bk2 h
    obtain ⟨l, r⟩ := p
    simp only [execSteps] at h
    cases hop : execBinaryOperation cfg bk l r with
    | error e => simp only [hop] at h; exact Except.noConfusion h
    | ok sb =>
      obtain ⟨s, bk1⟩ := sb
      simp only [hop] at h
      cases hrest : execSteps cfg bk1 rest with
      | error e => simp only [hrest] at h; exact Except.noConfusion h
      | ok ob =>
        obtain ⟨o2, bk3⟩ := ob
        simp only [hrest, Except.ok.injEq, Prod.mk.injEq] at h
        rw [← h.1]
        simp [ih bk1 o2 bk3 hrest]

/-- C10: `vectorOperator.Next` signals end-of-stream as soon as either
child batch is empty, and otherwise pairs steps by batch index, producing
exactly `min(len(lhs), len(rhs))` output steps. -/
theorem vector_next_pairing (cfg : BinCfg) (bk : Buckets) (lhs rhs out : List StepVector) (bk2 : Buckets) :
    ((lhs = [] ∨ rhs = []) →
      vectorNext cfg bk none (Except.ok lhs) (Except.ok rhs) = Except.ok ([], bk)) ∧
    (vectorNext cfg bk none (Except.ok lhs) (Except.ok rhs) = Except.ok (out, bk2) →
      out.length = min lhs.length rhs.length) := by
  constructor
  · rintro (h | h) <;> subst h <;> simp [vectorNext]
  · intro h
    simp only [vectorNext] at h
    by_cases he : lhs.isEmpty || rhs.isEmpty
    · rw [if_pos he] at h
      simp only [Except.ok.injEq, Prod.mk.injEq] at h
      rw [← h.1]
      rcases Bool.or_eq_true_iff.mp he with h1 | h1 <;>
        simp [List.isEmpty_iff.mp h1]
    · rw [if_neg he] at h
      rw [execSteps_length cfg (lhs.zip rhs) bk out bk2 h]
      exact List.length_zip _ _

/-- Witness for C10: an empty left child batch gives EOF, and a 3-step
left batch paired with a 2-step right batch yields exactly 2 output
steps. -/
theorem vector_next_pairing_witness :
    vectorNext ⟨Op.land, Card.manyToMany, false, (fun _ => 0), (fun _ => 0), (fun n => n)⟩ initBuckets none
        (Except.ok []) (Except.ok [emptyStep 5]) = Except.ok ([], initBuckets) ∧
    ([emptyStep 1, emptyStep 2] : List StepVector).length =
      min ([emptyStep 1, emptyStep 2, emptyStep 3] : List StepVector).length
          ([emptyStep 4, emptyStep 5] : List StepVector).length :=
  ⟨(vector_next_pairing _ _ [] [emptyStep 5] [] initBuckets).1 (Or.inl rfl),
   (vector_next_pairing ⟨Op.land, Card.manyToMany, false, (fun _ => 0), (fun _ => 0), (fun n => n)⟩
      initBuckets [emptyStep 1, emptyStep 2, emptyStep 3] [emptyStep 4, emptyStep 5]
      [emptyStep 1, emptyStep 2] initBuckets).2 rfl⟩

/-- Bucket stores agreeing on the fields the histogram loop reads
(`ats`, `sid`, `hval`); the high-card loops only write `bts`. -/
def bkSame (b1 b2 : Buckets) : Prop :=
  ∀ k, (b1 k).ats = (b2 k).ats ∧ (b1 k).sid = (b2 k).sid ∧ (b1 k).hval = (b2 k).hval

/-- The histogram entries the high-card histogram loop emits, computed
from the bucket state left by the low-card population: for each high-card
histogram whose bucket is stamped at `ts`, the histogram component of
`computeBinaryPairing(0, 0, hcHist, bucket.hval)` at output series
`outputSeriesID(hID+1, bucket.sid+1)`. -/
def c1HistOutput (cfg : BinCfg) (ts : Int) (bk : Buckets) (entries : List (Nat × Option Hist)) : List (Nat × Option Hist) :=
  entries.filterMap (fun e =>
    if (bk (cfg.hcJoin e.1)).ats = ts then
      (computeBinaryPairing cfg (Val.q 0) (Val.q 0) e.2 (bk (cfg.hcJoin e.1)).hval).map
        (fun r => (outputSeriesID cfg (e.1 + 1) ((bk (cfg.hcJoin e.1)).sid + 1), r.h))
    else none)

/-- The histogram emission claimed by the spec sentence verbatim:
`vectorElemBinop(op, 0, 0, hcHist, bucket.hval)` with the high-card
histogram always passed as the left operand, with no swap under
one-to-many cardinality. -/
def c1ClaimedHistOutput (cfg : BinCfg) (ts : Int) (bk : Buckets) (entries : List (Nat × Option Hist)) : List (Nat × Option Hist) :=
  entries.filterMap (fun e =>
    if (bk (cfg.hcJoin e.1)).ats = ts then
      (vectorElemBinop cfg.op (Val.q 0) (Val.q 0) e.2 (bk (cfg.hcJoin e.1)).hval).map
        (fun r => (outputSeriesID cfg (e.1 + 1) ((bk (cfg.hcJoin e.1)).sid + 1), r.h))
    else none)

/-- The histogram entries of the step produced by a step-level execution
result. -/
def histPairsOfRes : Except Err (StepVector × Buckets) → Option (List (Nat × Option Hist))
  | Except.ok (s, _) => some (histPairs s)
  | Except.error _ => none

theorem bkSame_refl (b : Buckets) : bkSame b b := fun _ => ⟨rfl, rfl, rfl⟩

theorem bkSame_trans {a b c : Buckets} (h1 : bkSame a b) (h2 : bkSame b c) : bkSame a c :=
  fun k => ⟨((h1 k).1).trans (h2 k).1, ((h1 k).2.1).trans (h2 k).2.1, ((h1 k).2.2).trans (h2 k).2.2⟩

/-- Stamping `bts` leaves the fields read by the histogram loop intact. -/
theorem bkSame_update_bts (bk : Buckets) (key : Nat) (t : Int) :
    bkSame (updateBk bk key { bk key with bts := t }) bk := by
  intro k
  by_cases hk : k = key <;> simp [updateBk, hk]

theorem c1HistOutput_congr (cfg : BinCfg) (ts : Int) {b1 b2 : Buckets} (h : bkSame b1 b2) :
    ∀ entries, c1HistOutput cfg ts b1 entries = c1HistOutput cfg ts b2 entries := by
  intro entries
  unfold c1HistOutput
  refine List.filterMap_congr ?_
  intro e _
  rw [(h (cfg.hcJoin e.1)).1, (h (cfg.hcJoin e.1)).2.1, (h (cfg.hcJoin e.1)).2.2]

/-- The high-card sample loop only stamps `bts` and appends samples: the
bucket fields read later and the accumulated histogram arrays are
untouched. -/
theorem execHcSamples_spec (cfg : BinCfg) (ts : Int) :
    ∀ (l : List (Nat × Val)) (bk : Buckets) (step step1 : StepVector) (bk1 : Buckets),
      execHcSamples cfg ts bk step l = Except.ok (step1, bk1) →
      bkSame bk1 bk ∧ step1.histogramIDs = step.histogramIDs ∧ step1.histograms = step.histograms := by
  intro l
  induction l with
  | nil =>
    intro bk step step1 bk1 h
    simp only [execHcSamples, Except.ok.injEq, Prod.mk.injEq] at h
    rw [← h.1, ← h.2]
    exact ⟨bkSame_refl bk, rfl, rfl⟩
  | cons e rest ih =>
    intro bk step step1 bk1 h
    obtain ⟨sid, v⟩ := e
    simp only [execHcSamples] at h
    by_cases hats : (bk (cfg.hcJoin sid)).ats ≠ ts
    · rw [if_pos hats] at h
      exact ih bk step step1 bk1 h
    · rw [if_neg hats] at h
      by_cases himp : (bk (cfg.hcJoin sid)).bts = ts ∧ cfg.card = Card.oneToOne
      · rw [if_pos himp] at h
        exact Except.noConfusion h
      · rw [if_neg himp] at h
        cases hcp : computeBinaryPairing cfg v (bk (cfg.hcJoin sid)).val none none with
        | none => rw [hcp] at h; exact Except.noConfusion h
        | some r =>
          rw [hcp] at h
          have h2 := ih _ _ _ _ h
          refine ⟨bkSame_trans h2.1 (bkSame_update_bts bk (cfg.hcJoin sid) ts), ?_, ?_⟩
          · refine h2.2.1.trans ?_
            by_cases hrb : cfg.returnBool <;> by_cases hk : r.keep <;>
              simp [hrb, hk, StepVector.appendSample]
          · refine h2.2.2.trans ?_
            by_cases hrb : cfg.returnBool <;> by_cases hk : r.keep <;>
              simp [hrb, hk, StepVector.appendSample]

/-- The high-card histogram loop emits exactly `c1HistOutput` over the
bucket state it starts from. -/
theorem execHcHists_spec (cfg : BinCfg) (ts : Int) :
    ∀ (l : List (Nat × Option Hist)) (bk : Buckets) (step step1 : StepVector) (bk1 : Buckets),
      step.histogramIDs.length = step.histograms.length →
      execHcHists cfg ts bk step l = Except.ok (step1, bk1) →
      histPairs step1 = histPairs step ++ c1HistOutput cfg ts bk l := by
  intro l
  induction l with
  | nil =>
    intro bk step step1 bk1 _ h
    simp only [execHcHists, Except.ok.injEq, Prod.mk.injEq] at h
    rw [← h.1]
    simp [c1HistOutput]
  | cons e rest ih =>
    intro bk step step1 bk1 hlen h
    obtain ⟨hid, hv⟩ := e
    simp only [execHcHists] at h
    by_cases hats : (bk (cfg.hcJoin hid)).ats ≠ ts
    · rw [if_pos hats] at h
      rw [ih bk step step1 bk1 hlen h]
      simp [c1HistOutput, List.filterMap_cons, hats]
    · rw [if_neg hats] at h
      rw [not_not] at hats
      by_cases himp : (bk (cfg.hcJoin hid)).bts = ts ∧ cfg.card = Card.oneToOne
      · rw [if_pos himp] at h
        exact Except.noConfusion h
      · rw [if_neg himp] at h
        cases hcp : computeBinaryPairing cfg (Val.q 0) (Val.q 0) hv (bk (cfg.hcJoin hid)).hval with
        | none => rw [hcp] at h; exact Except.noConfusion h
        | some r =>
          rw [hcp] at h
          have hlen2 : (step.appendHistogram (outputSeriesID cfg (hid + 1) ((bk (cfg.hcJoin hid)).sid + 1)) r.h).histogramIDs.length =
              (step.appendHistogram (outputSeriesID cfg (hid + 1) ((bk (cfg.hcJoin hid)).sid + 1)) r.h).histograms.length := by
            simp [StepVector.appendHistogram, hlen]
          have hrec := ih _ _ _ _ hlen2 h
          rw [hrec]
          have hpairs : histPairs (step.appendHistogram (outputSeriesID cfg (hid + 1) ((bk (cfg.hcJoin hid)).sid + 1)) r.h) =
              histPairs step ++ [(outputSeriesID cfg (hid + 1) ((bk (cfg.hcJoin hid)).sid + 1), r.h)] := by
            unfold histPairs StepVector.appendHistogram
            exact List.zip_append hlen
          rw [hpairs,
            c1HistOutput_congr cfg ts (bkSame_update_bts bk (cfg.hcJoin hid) ts) rest]
          simp [c1HistOutput, List.filterMap_cons, hats, hcp]

/-- C1 (amended): the arithmetic/comparison step returns an empty step
when the high-card side has no samples and no histograms; when it has
samples and the step succeeds, the step's histogram output is exactly the
`computeBinaryPairing(0, 0, hcHist, bucket.hval)` emissions — i.e.
`vectorElemBinop(op, 0, 0, hcHist, bucket.hval)` except under one-to-many
cardinality, where the operands are swapped — at output series
`outputSeriesID(hID+1, bucket.sid+1)`, over the buckets the low-card side
populated at this timestamp. -/
theorem binary_arith_hist_emission (cfg : BinCfg) (bk : Buckets) (lhs rhs hcs lcs : StepVector)
    (hpart : hcLcOf cfg.card lhs rhs = some (hcs, lcs)) :
    (hcs.samples = [] ∧ hcs.histograms = [] →
      execBinaryArithmetic cfg bk lhs rhs = Except.ok (emptyStep lhs.T, bk)) ∧
    (∀ (step : StepVector) (bk2 bkP : Buckets), hcs.samples ≠ [] →
      execBinaryArithmetic cfg bk lhs rhs = Except.ok (step, bk2) →
      populateLc cfg lhs.T bk lcs = Except.ok bkP →
      histPairs step = c1HistOutput cfg lhs.T bkP (hcs.histogramIDs.zip hcs.histograms)) := by
  constructor
  · intro hempty
    simp only [execBinaryArithmetic, hpart, hempty.1, if_pos]
  · intro step bk2 bkP hne hexec hpop
    simp only [execBinaryArithmetic, hpart, if_neg hne, hpop] at hexec
    cases hsm : execHcSamples cfg lhs.T bkP (emptyStep lhs.T) (hcs.sampleIDs.zip hcs.samples) with
    | error e => rw [hsm] at hexec; exact Except.noConfusion hexec
    | ok sb =>
      obtain ⟨step1, bkS⟩ := sb
      rw [hsm] at hexec
      have hs := execHcSamples_spec cfg lhs.T _ bkP (emptyStep lhs.T) step1 bkS hsm
      have hlen1 : step1.histogramIDs.length = step1.histograms.length := by
        rw [hs.2.1, hs.2.2]
        rfl
      have hh := execHcHists_spec cfg lhs.T _ bkS step1 step bk2 hlen1 hexec
      rw [hh, c1HistOutput_congr cfg lhs.T hs.1 (hcs.histogramIDs.zip hcs.histograms)]
      have : histPairs step1 = [] := by
        unfold histPairs
        rw [hs.2.1, hs.2.2]
        rfl
      rw [this]
      rfl

/-- Witness for C1 (amended): a high-card side with no samples and no
histograms yields the empty step; a many-to-one `+` step with one matched
sample and one matched histogram emits exactly the `computeBinaryPairing`
histogram output. -/
theorem binary_arith_hist_emission_witness :
    execBinaryArithmetic ⟨Op.add, Card.manyToOne, true, (fun n => n), (fun n => n), (fun n => n)⟩
        initBuckets ⟨7, [], [], [], []⟩ ⟨7, [2], [Val.q 9], [], []⟩ =
      Except.ok (emptyStep 7, initBuckets) ∧
    histPairs ⟨0, [12], [Val.q 1], [12], [none]⟩ =
      c1HistOutput ⟨Op.add, Card.manyToOne, true, (fun n => n), (fun n => n), (fun n => n)⟩ 0
        (updateBk initBuckets 1 ⟨0, -1, 1, 0, Val.q 3, none⟩)
        ((⟨0, [1], [Val.q 3], [1], [some ⟨false, Val.q 1, Val.q 1, []⟩]⟩ : StepVector).histogramIDs.zip
          (⟨0, [1], [Val.q 3], [1], [some ⟨false, Val.q 1, Val.q 1, []⟩]⟩ : StepVector).histograms) := by
  constructor
  · exact (binary_arith_hist_emission
      ⟨Op.add, Card.manyToOne, true, (fun n => n), (fun n => n), (fun n => n)⟩
      initBuckets ⟨7, [], [], [], []⟩ ⟨7, [2], [Val.q 9], [], []⟩
      ⟨7, [], [], [], []⟩ ⟨7, [2], [Val.q 9], [], []⟩ rfl).1 ⟨rfl, rfl⟩
  · exact (binary_arith_hist_emission
      ⟨Op.add, Card.manyToOne, true, (fun n => n), (fun n => n), (fun n => n)⟩
      initBuckets ⟨0, [1], [Val.q 3], [1], [some ⟨false, Val.q 1, Val.q 1, []⟩]⟩
      ⟨0, [1], [Val.q 3], [], []⟩
      ⟨0, [1], [Val.q 3], [1], [some ⟨false, Val.q 1, Val.q 1, []⟩]⟩
      ⟨0, [1], [Val.q 3], [], []⟩ rfl).2
      ⟨0, [12], [Val.q 1], [12], [none]⟩
      (updateBk (updateBk (updateBk initBuckets 1 ⟨0, -1, 1, 0, Val.q 3, none⟩) 1
        ⟨0, 0, 1, 0, Val.q 3, none⟩) 1 ⟨0, 0, 1, 0, Val.q 3, none⟩)
      (updateBk initBuckets 1 ⟨0, -1, 1, 0, Val.q 3, none⟩)
      (by decide) (by rfl) (by rfl)

/-- C1 is false as stated: under one-to-many cardinality the operands of
the histogram kernel are swapped, so an `==` step emits the low-card
bucket's histogram where the claim's verbatim
`vectorElemBinop(op, 0, 0, hcHist, bucket.hval)` predicts the high-card
histogram. -/
theorem binary_arith_hist_emission_counterexample :
    histPairsOfRes (execBinaryArithmetic
        ⟨Op.eqlc, Card.oneToMany, false, (fun _ => 0), (fun _ => 0), (fun n => n)⟩ initBuckets
        ⟨0, [], [], [0], [some ⟨false, Val.q 1, Val.q 1, []⟩]⟩
        ⟨0, [0], [Val.q 1], [0], [some ⟨false, Val.q 2, Val.q 1, []⟩]⟩) =
      some [(4, some ⟨false, Val.q 1, Val.q 1, []⟩)] ∧
    populateLc ⟨Op.eqlc, Card.oneToMany, false, (fun _ => 0), (fun _ => 0), (fun n => n)⟩ 0 initBuckets
        ⟨0, [], [], [0], [some ⟨false, Val.q 1, Val.q 1, []⟩]⟩ =
      Except.ok (updateBk initBuckets 0 ⟨0, -1, 0, 0, Val.q 0, some ⟨false, Val.q 1, Val.q 1, []⟩⟩) ∧
    c1ClaimedHistOutput ⟨Op.eqlc, Card.oneToMany, false, (fun _ => 0), (fun _ => 0), (fun n => n)⟩ 0
        (updateBk initBuckets 0 ⟨0, -1, 0, 0, Val.q 0, some ⟨false, Val.q 1, Val.q 1, []⟩⟩)
        [(0, some ⟨false, Val.q 2, Val.q 1, []⟩)] =
      [(4, some ⟨false, Val.q 2, Val.q 1, []⟩)] ∧
    some [((4 : Nat), some (⟨false, Val.q 1, Val.q 1, []⟩ : Hist))] ≠
      some [((4 : Nat), some (⟨false, Val.q 2, Val.q 1, []⟩ : Hist))] :=
  ⟨by decide, rfl, by decide, by decide⟩

/-- Every error produced by the low-card sample loop is a many-to-many
match error attributed to the low-card side. -/
theorem populateLcSamples_error_shape (cfg : BinCfg) (ts : Int) :
    ∀ (l : List (Nat × Val)) (bk : Buckets) (e : Err),
      populateLcSamples cfg ts bk l = Except.error e →
      ∃ o d, e = mkManyToManyErr cfg.card o d := by
  intro l
  induction l with
  | nil => intro bk e h; exact Except.noConfusion h
  | cons p rest ih =>
    intro bk e h
    obtain ⟨sid, v⟩ := p
    simp only [populateLcSamples] at h
    by_cases hats : (bk (cfg.lcJoin sid)).ats = ts
    · rw [if_pos hats] at h
      exact ⟨(bk (cfg.lcJoin sid)).sid, sid, (Except.error.inj h).symm⟩
    · rw [if_neg hats] at h
      exact ih _ e h

/-- Every error produced by the low-card histogram loop is a many-to-many
match error attributed to the low-card side. -/
theorem populateLcHists_error_shape (cfg : BinCfg) (ts : Int) :
    ∀ (l : List (Nat × Option Hist)) (bk : Buckets) (e : Err),
      populateLcHists cfg ts bk l = Except.error e →
      ∃ o d, e = mkManyToManyErr cfg.card o d := by
  intro l
  induction l with
  | nil => intro bk e h; exact Except.noConfusion h
  | cons p rest ih =>
    intro bk e h
    obtain ⟨hid, hv⟩ := p
    simp only [populateLcHists] at h
    by_cases hats : (bk (cfg.lcJoin hid)).ats = ts
    · rw [if_pos hats] at h
      exact ⟨(bk (cfg.lcJoin hid)).sid, hid, (Except.error.inj h).symm⟩
    · rw [if_neg hats] at h
      exact ih _ e h

/-- When the low-card sample loop succeeds it has stamped the bucket of
every processed entry at `ts`, and it never un-stamps a bucket. -/
theorem populateLcSamples_ok_ats (cfg : BinCfg) (ts : Int) :
    ∀ (l : List (Nat × Val)) (bk bk1 : Buckets),
      populateLcSamples cfg ts bk l = Except.ok bk1 →
      (∀ k, (bk k).ats = ts → (bk1 k).ats = ts) ∧
      (∀ p ∈ l, (bk1 (cfg.lcJoin p.1)).ats = ts) := by
  intro l
  induction l with
  | nil =>
    intro bk bk1 h
    refine ⟨fun k hk => ?_, fun p hp => absurd hp (List.not_mem_nil p)⟩
    rw [← Except.ok.inj h]
    exact hk
  | cons p rest ih =>
    intro bk bk1 h
    obtain ⟨sid, v⟩ := p
    simp only [populateLcSamples] at h
    by_cases hats : (bk (cfg.lcJoin sid)).ats = ts
    · rw [if_pos hats] at h; exact Except.noConfusion h
    · rw [if_neg hats] at h
      have hpres : ∀ k, ((updateBk bk (cfg.lcJoin sid)
          { bk (cfg.lcJoin sid) with sid := sid, val := v, ats := ts }) k).ats = ts ∨
          ((updateBk bk (cfg.lcJoin sid)
          { bk (cfg.lcJoin sid) with sid := sid, val := v, ats := ts }) k).ats = (bk k).ats := by
        intro k
        by_cases hk : k = cfg.lcJoin sid <;> simp [updateBk, hk]
      refine ⟨fun k hk => ?_, fun q hq => ?_⟩
      · rcases hpres k with h1 | h1
        · exact (ih _ _ h).1 k h1
        · exact (ih _ _ h).1 k (h1.trans hk)
      · rcases List.mem_cons.mp hq with h1 | h1
        · rw [h1]
          refine (ih _ _ h).1 _ ?_
          simp [updateBk]
        · exact (ih _ _ h).2 q h1

/-- A low-card sample list containing a duplicate bucket key, or a key
whose bucket is already stamped at `ts`, makes the sample loop fail. -/
theorem populateLcSamples_stuck (cfg : BinCfg) (ts : Int) :
    ∀ (l : List (Nat × Val)) (bk : Buckets),
      ((∃ p ∈ l, (bk (cfg.lcJoin p.1)).ats = ts) ∨
        ¬(l.map (fun p => cfg.lcJoin p.1)).Nodup) →
      ∃ e, populateLcSamples cfg ts bk l = Except.error e := by
  intro l
  induction l with
  | nil =>
    intro bk h
    rcases h with ⟨p, hp, _⟩ | h
    · exact absurd hp (List.not_mem_nil p)
    · exact absurd List.nodup_nil (fun hn => h hn)
  | cons p rest ih =>
    intro bk h
    obtain ⟨sid, v⟩ := p
    by_cases hats : (bk (cfg.lcJoin sid)).ats = ts
    · exact ⟨mkManyToManyErr cfg.card (bk (cfg.lcJoin sid)).sid sid,
        by simp only [populateLcSamples, if_pos hats]⟩
    · have hrest : (∃ p ∈ rest, ((updateBk bk (cfg.lcJoin sid)
          { bk (cfg.lcJoin sid) with sid := sid, val := v, ats := ts }) (cfg.lcJoin p.1)).ats = ts) ∨
          ¬(rest.map (fun p => cfg.lcJoin p.1)).Nodup := by
        rcases h with ⟨q, hq, hqa⟩ | hnd
        · rcases List.mem_cons.mp hq with h1 | h1
          · rw [h1] at hqa; exact absurd hqa hats
          · refine Or.inl ⟨q, h1, ?_⟩
            by_cases hk : cfg.lcJoin q.1 = cfg.lcJoin sid <;> simp [updateBk, hk, hqa]
        · rw [List.map_cons, List.nodup_cons] at hnd
          push_neg at hnd
          by_cases hmem : cfg.lcJoin sid ∈ rest.map (fun p => cfg.lcJoin p.1)
          · obtain ⟨q, hq, hqe⟩ := List.mem_map.mp hmem
            refine Or.inl ⟨q, hq, ?_⟩
            rw [hqe]
            simp [updateBk]
          · exact Or.inr (hnd hmem)
      obtain ⟨e, he⟩ := ih _ hrest
      exact ⟨e, by simp only [populateLcSamples, if_neg hats, he]⟩

/-- The histogram-loop analogue of `populateLcSamples_stuck`. -/
theorem populateLcHists_stuck (cfg : BinCfg) (ts : Int) :
    ∀ (l : List (Nat × Option Hist)) (bk : Buckets),
      ((∃ p ∈ l, (bk (cfg.lcJoin p.1)).ats = ts) ∨
        ¬(l.map (fun p => cfg.lcJoin p.1)).Nodup) →
      ∃ e, populateLcHists cfg ts bk l = Except.error e := by
  intro l
  induction l with
  | nil =>
    intro bk h
    rcases h with ⟨p, hp, _⟩ | h
    · exact absurd hp (List.not_mem_nil p)
    · exact absurd List.nodup_nil (fun hn => h hn)
  | cons p rest ih =>
    intro bk h
    obtain ⟨hid, hv⟩ := p
    by_cases hats : (bk (cfg.lcJoin hid)).ats = ts
    · exact ⟨mkManyToManyErr cfg.card (bk (cfg.lcJoin hid)).sid hid,
        by simp only [populateLcHists, if_pos hats]⟩
    · have hrest : (∃ p ∈ rest, ((updateBk bk (cfg.lcJoin hid)
          { bk (cfg.lcJoin hid) with hid := hid, hval := hv, ats := ts }) (cfg.lcJoin p.1)).ats = ts) ∨
          ¬(rest.map (fun p => cfg.lcJoin p.1)).Nodup := by
        rcases h with ⟨q, hq, hqa⟩ | hnd
        · rcases List.mem_cons.mp hq with h1 | h1
          · rw [h1] at hqa; exact absurd hqa hats
          · refine Or.inl ⟨q, h1, ?_⟩
            by_cases hk : cfg.lcJoin q.1 = cfg.lcJoin hid <;> simp [updateBk, hk, hqa]
        · rw [List.map_cons, List.nodup_cons] at hnd
          push_neg at hnd
          by_cases hmem : cfg.lcJoin hid ∈ rest.map (fun p => cfg.lcJoin p.1)
          · obtain ⟨q, hq, hqe⟩ := List.mem_map.mp hmem
            refine Or.inl ⟨q, hq, ?_⟩
            rw [hqe]
            simp [updateBk]
          · exact Or.inr (hnd hmem)
      obtain ⟨e, he⟩ := ih _ hrest
      exact ⟨e, by simp only [populateLcHists, if_neg hats, he]⟩

/-- Two low-card entries (samples or histograms) sharing a join signature
make the low-card population fail with a many-to-many error. -/
theorem populateLc_dup_error (cfg : BinCfg) (ts : Int) (bk : Buckets) (lcs : StepVector)
    (hdup : ¬(((lcs.sampleIDs.zip lcs.samples).map (fun p => cfg.lcJoin p.1) ++
               ((lcs.histogramIDs.zip lcs.histograms).map (fun p => cfg.lcJoin p.1))).Nodup)) :
    ∃ o d, populateLc cfg ts bk lcs = Except.error (mkManyToManyErr cfg.card o d) := by
  rw [List.nodup_append] at hdup
  push_neg at hdup
  by_cases h1 : ((lcs.sampleIDs.zip lcs.samples).map (fun p => cfg.lcJoin p.1)).Nodup
  · cases hs : populateLcSamples cfg ts bk (lcs.sampleIDs.zip lcs.samples) with
    | error e =>
      obtain ⟨o, d, he⟩ := populateLcSamples_error_shape cfg ts _ bk e hs
      exact ⟨o, d, by simp only [populateLc, hs, he]⟩
    | ok bk1 =>
      by_cases h2 : ((lcs.histogramIDs.zip lcs.histograms).map (fun p => cfg.lcJoin p.1)).Nodup
      · have hdisj := hdup h1 h2
        rw [List.Disjoint] at hdisj
        push_neg at hdisj
        obtain ⟨k, hk1, hk2⟩ := hdisj
        obtain ⟨q, hq, hqe⟩ := List.mem_map.mp hk2.1
        obtain ⟨p, hp, hpe⟩ := List.mem_map.mp hk1
        have hstamp : (bk1 (cfg.lcJoin q.1)).ats = ts := by
          rw [hqe, ← hpe]
          exact (populateLcSamples_ok_ats cfg ts _ bk bk1 hs).2 p hp
        obtain ⟨e, he⟩ := populateLcHists_stuck cfg ts _ bk1 (Or.inl ⟨q, hq, hstamp⟩)
        obtain ⟨o, d, hee⟩ := populateLcHists_error_shape cfg ts _ bk1 e he
        exact ⟨o, d, by simp only [populateLc, hs, he, hee]⟩
      · obtain ⟨e, he⟩ := populateLcHists_stuck cfg ts _ bk1 (Or.inr h2)
        obtain ⟨o, d, hee⟩ := populateLcHists_error_shape cfg ts _ bk1 e he
        exact ⟨o, d, by simp only [populateLc, hs, he, hee]⟩
  · obtain ⟨e, he⟩ := populateLcSamples_stuck cfg ts _ bk (Or.inr h1)
    obtain ⟨o, d, hee⟩ := populateLcSamples_error_shape cfg ts _ bk e he
    exact ⟨o, d, by simp only [populateLc, he, hee]⟩

/-- On a non-logical operator token the dispatcher routes to the
arithmetic/comparison step. -/
theorem execBinaryOperation_arith (cfg : BinCfg) (hop : cfg.op.isLogical = false)
    (bk : Buckets) (l r : StepVector) :
    execBinaryOperation cfg bk l r = execBinaryArithmetic cfg bk l r := by
  obtain ⟨op, card, rb, lj, hj, om⟩ := cfg
  cases op <;> first | rfl | simp [Op.isLogical] at hop

/-- C3 (amended): on an arithmetic or comparison step whose high-card
side has at least one sample, two low-card entries (samples or
histograms) sharing a join signature make the step — and `Next` — fail
with a fatal many-to-many match error attributed to the low-card side,
and no step vector is produced. -/
theorem many_to_many_lc_error (cfg : BinCfg) (bk : Buckets) (lhs rhs hcs lcs : StepVector)
    (hpart : hcLcOf cfg.card lhs rhs = some (hcs, lcs))
    (hop : cfg.op.isLogical = false)
    (hs : hcs.samples ≠ [])
    (hlen1 : lcs.sampleIDs.length = lcs.samples.length)
    (hlen2 : lcs.histogramIDs.length = lcs.histograms.length)
    (hdup : ¬((lcs.sampleIDs ++ lcs.histogramIDs).map cfg.lcJoin).Nodup) :
    ∃ o d, execBinaryArithmetic cfg bk lhs rhs =
        Except.error (Err.manyToMany (lcSideOf cfg.card) o d) ∧
      vectorNext cfg bk none (Except.ok [lhs]) (Except.ok [rhs]) =
        Except.error (Err.manyToMany (lcSideOf cfg.card) o d) := by
  have hconv : ((lcs.sampleIDs.zip lcs.samples).map (fun p => cfg.lcJoin p.1) ++
      ((lcs.histogramIDs.zip lcs.histograms).map (fun p => cfg.lcJoin p.1))) =
      (lcs.sampleIDs ++ lcs.histogramIDs).map cfg.lcJoin := by
    have e1 : (lcs.sampleIDs.zip lcs.samples).map (fun p => cfg.lcJoin p.1) =
        lcs.sampleIDs.map cfg.lcJoin := by
      have := List.map_fst_zip lcs.sampleIDs lcs.samples (le_of_eq hlen1)
      calc (lcs.sampleIDs.zip lcs.samples).map (fun p => cfg.lcJoin p.1)
          = ((lcs.sampleIDs.zip lcs.samples).map Prod.fst).map cfg.lcJoin := by
            rw [List.map_map]; rfl
        _ = lcs.sampleIDs.map cfg.lcJoin := by rw [this]
    have e2 : (lcs.histogramIDs.zip lcs.histograms).map (fun p => cfg.lcJoin p.1) =
        lcs.histogramIDs.map cfg.lcJoin := by
      have := List.map_fst_zip lcs.histogramIDs lcs.histograms (le_of_eq hlen2)
      calc (lcs.histogramIDs.zip lcs.histograms).map (fun p => cfg.lcJoin p.1)
          = ((lcs.histogramIDs.zip lcs.histograms).map Prod.fst).map cfg.lcJoin := by
            rw [List.map_map]; rfl
        _ = lcs.histogramIDs.map cfg.lcJoin := by rw [this]
    rw [e1, e2, List.map_append]
  obtain ⟨o, d, hperr⟩ := populateLc_dup_error cfg lhs.T bk lcs (by rw [hconv]; exact hdup)
  refine ⟨o, d, ?_, ?_⟩
  · simp only [execBinaryArithmetic, hpart, if_neg hs, hperr]
    rfl
  · have hexec : execBinaryArithmetic cfg bk lhs rhs =
        Except.error (Err.manyToMany (lcSideOf cfg.card) o d) := by
      simp only [execBinaryArithmetic, hpart, if_neg hs, hperr]
      rfl
    simp only [vectorNext, List.isEmpty_cons, Bool.or_self, Bool.false_eq_true, if_false,
      execSteps, List.zip_cons_cons, List.zip_nil_right,
      execBinaryOperation_arith cfg hop, hexec]

/-- Witness for C3 (amended): two low-card samples with the same join
signature at one step under one-to-one matching, with a sample on the
high-card side. -/
theorem many_to_many_lc_error_witness :
    ∃ o d, execBinaryArithmetic ⟨Op.sub, Card.oneToOne, false, (fun _ => 0), (fun _ => 0), (fun n => n)⟩
        initBuckets ⟨0, [0], [Val.q 1], [], []⟩ ⟨0, [0, 1], [Val.q 1, Val.q 2], [], []⟩ =
        Except.error (Err.manyToMany (lcSideOf Card.oneToOne) o d) ∧
      vectorNext ⟨Op.sub, Card.oneToOne, false, (fun _ => 0), (fun _ => 0), (fun n => n)⟩
        initBuckets none (Except.ok [⟨0, [0], [Val.q 1], [], []⟩])
        (Except.ok [⟨0, [0, 1], [Val.q 1, Val.q 2], [], []⟩]) =
        Except.error (Err.manyToMany (lcSideOf Card.oneToOne) o d) :=
  many_to_many_lc_error ⟨Op.sub, Card.oneToOne, false, (fun _ => 0), (fun _ => 0), (fun n => n)⟩
    initBuckets ⟨0, [0], [Val.q 1], [], []⟩ ⟨0, [0, 1], [Val.q 1, Val.q 2], [], []⟩
    ⟨0, [0], [Val.q 1], [], []⟩ ⟨0, [0, 1], [Val.q 1, Val.q 2], [], []⟩
    rfl rfl (by decide) (by decide) (by decide) (by decide)

/-- C3 is false as stated: with no sample on the high-card side the
shortcut returns an empty step before the low-card duplicate check runs,
so two signature-colliding low-card samples produce no error. -/
theorem many_to_many_lc_error_counterexample :
    execBinaryArithmetic ⟨Op.add, Card.oneToOne, false, (fun _ => 0), (fun _ => 0), (fun n => n)⟩
        initBuckets ⟨0, [], [], [], []⟩ ⟨0, [0, 1], [Val.q 1, Val.q 2], [], []⟩ =
      Except.ok (emptyStep 0, initBuckets) ∧
    (¬(((⟨0, [0, 1], [Val.q 1, Val.q 2], [], []⟩ : StepVector).sampleIDs ++
        (⟨0, [0, 1], [Val.q 1, Val.q 2], [], []⟩ : StepVector).histogramIDs).map
          (fun _ => (0 : Nat))).Nodup) ∧
    vectorNext ⟨Op.add, Card.oneToOne, false, (fun _ => 0), (fun _ => 0), (fun n => n)⟩
        initBuckets none (Except.ok [⟨0, [], [], [], []⟩])
        (Except.ok [⟨0, [0, 1], [Val.q 1, Val.q 2], [], []⟩]) =
      Except.ok ([emptyStep 0], initBuckets) :=
  ⟨rfl, by decide, rfl⟩

/-- The positions-as-bits value of one series over a batch suffix: the OR
of `stepMask i` over the batch positions where the series has a sample. -/
def posOr (x : Nat) : Nat → List StepVector → Nat
  | _, [] => 0
  | i, sv :: rest => (if x ∈ sv.sampleIDs then stepMask i else 0) ||| posOr x (i + 1) rest

/-- Pointwise characterization of one step's mask accumulation. -/
theorem applyStep_eq (i : Nat) : ∀ (sids : List Nat) (c : Nat → Nat) (x : Nat),
    applyStep c i sids x = if x ∈ sids then c x ||| stepMask i else c x := by
  intro sids
  induction sids with
  | nil => intro c x; simp [applyStep]
  | cons s rest ih =>
    intro c x
    rw [applyStep, ih]
    by_cases hxs : x = s
    · subst hxs
      by_cases hxr : x ∈ rest <;>
        simp [hxr, List.mem_cons, Nat.or_assoc, Nat.or_self]
    · by_cases hxr : x ∈ rest <;>
        simp [hxr, hxs, List.mem_cons]

/-- Pointwise characterization of the batch mask accumulation. -/
theorem accumulate_eq : ∀ (batch : List StepVector) (c : Nat → Nat) (i x : Nat),
    accumulate c i batch x = c x ||| posOr x i batch := by
  intro batch
  induction batch with
  | nil => intro c i x; simp [accumulate, posOr]
  | cons sv rest ih =>
    intro c i x
    rw [accumulate, ih, applyStep_eq, posOr]
    by_cases hx : x ∈ sv.sampleIDs <;> simp [hx, Nat.or_assoc]

/-- `2 << i` on a `uint64` is `2^(i+1)` reduced mod `2^64`. -/
theorem stepMask_eq (i : Nat) : stepMask i = 2 ^ (i + 1) % 2 ^ 64 := by
  have h : 2 <<< i = 2 ^ (i + 1) := by
    rw [Nat.shiftLeft_eq, Nat.pow_succ, Nat.mul_comm]
  unfold stepMask
  rw [h]

/-- The only bit of `stepMask i` is bit `i+1`, and only below the 64-bit
width. -/
theorem testBit_stepMask (i j : Nat) : (stepMask i).testBit j = true ↔ j = i + 1 ∧ j < 64 := by
  rw [stepMask_eq, Nat.testBit_mod_two_pow, Bool.and_eq_true, Nat.testBit_two_pow]
  constructor
  · rintro ⟨h1, h2⟩
    exact ⟨(of_decide_eq_true h2).symm, of_decide_eq_true h1⟩
  · rintro ⟨h1, h2⟩
    exact ⟨decide_eq_true h2, decide_eq_true h1.symm⟩

/-- A bitwise AND is positive exactly when some bit is set on both sides. -/
theorem and_pos_iff (a b : Nat) : 0 < a &&& b ↔ ∃ j, a.testBit j = true ∧ b.testBit j = true := by
  constructor
  · intro h
    obtain ⟨j, hj⟩ := Nat.ne_zero_implies_bit_true (Nat.pos_iff_ne_zero.mp h)
    rw [Nat.testBit_and, Bool.and_eq_true] at hj
    exact ⟨j, hj⟩
  · rintro ⟨j, h1, h2⟩
    rw [Nat.pos_iff_ne_zero]
    intro h0
    have hb := Nat.testBit_and a b j
    rw [h0, Nat.zero_testBit, h1, h2] at hb
    simp at hb

/-- The bits of `posOr`: bit `j` is set exactly when the series has a
sample at a batch position `d` with `j = i + d + 1 < 64`. -/
theorem testBit_posOr (x : Nat) : ∀ (batch : List StepVector) (i j : Nat),
    (posOr x i batch).testBit j = true ↔
      ∃ d, d < batch.length ∧ x ∈ (batch.getD d (emptyStep 0)).sampleIDs ∧
        j = i + d + 1 ∧ j < 64 := by
  intro batch
  induction batch with
  | nil =>
    intro i j
    simp [posOr]
  | cons sv rest ih =>
    intro i j
    rw [posOr, Nat.testBit_or, Bool.or_eq_true, ih]
    by_cases hx : x ∈ sv.sampleIDs
    · rw [if_pos hx, testBit_stepMask]
      constructor
      · rintro (⟨hj, hlt⟩ | ⟨d, hd, hmem, hj, hlt⟩)
        · exact ⟨0, by simp, by simpa using hx, by omega, hlt⟩
        · refine ⟨d + 1, by simp only [List.length_cons]; omega, by simpa using hmem, by omega, hlt⟩
      · rintro ⟨d, hd, hmem, hj, hlt⟩
        cases d with
        | zero => exact Or.inl ⟨by omega, hlt⟩
        | succ d2 =>
          refine Or.inr ⟨d2, ?_, by simpa using hmem, by omega, hlt⟩
          simp only [List.length_cons] at hd
          omega
    · rw [if_neg hx]
      constructor
      · rintro (h | ⟨d, hd, hmem, hj, hlt⟩)
        · rw [Nat.zero_testBit] at h
          exact absurd h (by simp)
        · refine ⟨d + 1, by simp only [List.length_cons]; omega, by simpa using hmem, by omega, hlt⟩
      · rintro ⟨d, hd, hmem, hj, hlt⟩
        cases d with
        | zero =>
          rw [List.getD_cons_zero] at hmem
          exact absurd hmem hx
        | succ d2 =>
          refine Or.inr ⟨d2, ?_, by simpa using hmem, by omega, hlt⟩
          simp only [List.length_cons] at hd
          omega

/-- Once a mask entry is zero, the reset loop keeps it zero. -/
theorem resetPairs_zero : ∀ (p : List (Nat × Nat)) (c : Nat → Nat) (x : Nat),
    c x = 0 → resetPairs c p x = 0 := by
  intro p
  induction p with
  | nil => intro c x h; exact h
  | cons ab rest ih =>
    intro c x h
    rw [resetPairs]
    apply ih
    by_cases hc : x = ab.1 ∨ x = ab.2 <;> simp [hc, h]

/-- The reset loop zeroes both components of every recorded pair. -/
theorem resetPairs_mem : ∀ (p : List (Nat × Nat)) (c : Nat → Nat) (ab : Nat × Nat), ab ∈ p →
    resetPairs c p ab.1 = 0 ∧ resetPairs c p ab.2 = 0 := by
  intro p
  induction p with
  | nil => intro c ab h; exact absurd h (List.not_mem_nil ab)
  | cons ab0 rest ih =>
    intro c ab h
    rcases List.mem_cons.mp h with h1 | h1
    · subst h1
      rw [resetPairs]
      constructor <;> apply resetPairs_zero <;> simp
    · rw [resetPairs]
      exact ih _ ab h1

/-- The pair check at the end of `duplicateLabelCheckOperator.Next`: some
recorded pair's masks intersect exactly when both members of some pair
have a sample at one batch position below 63 (positions 63 and above fall
out of the 64-bit mask). -/
theorem dup_mask_iff (p : List (Nat × Nat)) (c : Nat → Nat) (inp : List StepVector) :
    (p.any (fun ab => 0 < accumulate (resetPairs c p) 0 inp ab.1 &&&
        accumulate (resetPairs c p) 0 inp ab.2) = true) ↔
    ∃ ab ∈ p, ∃ i, i < inp.length ∧ i < 63 ∧
      ab.1 ∈ (inp.getD i (emptyStep 0)).sampleIDs ∧
      ab.2 ∈ (inp.getD i (emptyStep 0)).sampleIDs := by
  rw [List.any_eq_true]
  constructor
  · rintro ⟨ab, hab, hpos⟩
    have hpos2 := of_decide_eq_true hpos
    have h1 := resetPairs_mem p c ab hab
    rw [accumulate_eq, accumulate_eq, h1.1, h1.2, Nat.zero_or, Nat.zero_or, and_pos_iff] at hpos2
    obtain ⟨j, hj1, hj2⟩ := hpos2
    rw [testBit_posOr] at hj1 hj2
    obtain ⟨d1, hd1, hm1, hj1e, hlt⟩ := hj1
    obtain ⟨d2, hd2, hm2, hj2e, _⟩ := hj2
    have hdd : d1 = d2 := by omega
    subst hdd
    exact ⟨ab, hab, d1, hd1, by omega, hm1, hm2⟩
  · rintro ⟨ab, hab, i, hi, hi63, hm1, hm2⟩
    refine ⟨ab, hab, decide_eq_true ?_⟩
    have h1 := resetPairs_mem p c ab hab
    rw [accumulate_eq, accumulate_eq, h1.1, h1.2, Nat.zero_or, Nat.zero_or, and_pos_iff]
    refine ⟨i + 1, ?_, ?_⟩ <;> rw [testBit_posOr]
    · exact ⟨i, hi, hm1, by omega, by omega⟩
    · exact ⟨i, hi, hm2, by omega, by omega⟩

/-- C2 (amended): on a pulled batch, the duplicate-label check fails with
`DuplicateLabelSet` exactly when some recorded hash-collision pair has
both series sampled at one common batch position `i` with `i < 63` (the
`2 << i` mask bit overflows to zero from position 63 on); otherwise the
batch is forwarded unchanged.  Pairs never simultaneously alive at such a
position never trigger the error. -/
theorem dup_check_duplicate_label (hashes : List Nat) (c : Nat → Nat) (inp : List StepVector)
    (hne : inp ≠ []) :
    (dupNext hashes c none (Except.ok inp) = Except.error Err.duplicateLabelSet ↔
      ∃ ab ∈ dupPairs hashes, ∃ i, i < inp.length ∧ i < 63 ∧
        ab.1 ∈ (inp.getD i (emptyStep 0)).sampleIDs ∧
        ab.2 ∈ (inp.getD i (emptyStep 0)).sampleIDs) ∧
    ((¬∃ ab ∈ dupPairs hashes, ∃ i, i < inp.length ∧ i < 63 ∧
        ab.1 ∈ (inp.getD i (emptyStep 0)).sampleIDs ∧
        ab.2 ∈ (inp.getD i (emptyStep 0)).sampleIDs) →
      ∃ c2, dupNext hashes c none (Except.ok inp) = Except.ok (inp, c2)) := by
  cases inp with
  | nil => exact absurd rfl hne
  | cons x rest =>
    have hiff := dup_mask_iff (dupPairs hashes) c (x :: rest)
    by_cases hp : (dupPairs hashes).isEmpty
    · have hpnil : dupPairs hashes = [] := List.isEmpty_iff.mp hp
      refine ⟨⟨fun h => ?_, fun hr => ?_⟩, fun hnot => ⟨c, ?_⟩⟩
      · simp only [dupNext] at h
        rw [if_pos hp] at h
        exact Except.noConfusion h
      · obtain ⟨ab, hab, _⟩ := hr
        rw [hpnil] at hab
        exact absurd hab (List.not_mem_nil ab)
      · simp only [dupNext]
        rw [if_pos hp]
    · have hred : dupNext hashes c none (Except.ok (x :: rest)) =
          (if (dupPairs hashes).any (fun ab =>
              0 < accumulate (resetPairs c (dupPairs hashes)) 0 (x :: rest) ab.1 &&&
                accumulate (resetPairs c (dupPairs hashes)) 0 (x :: rest) ab.2)
           then Except.error Err.duplicateLabelSet
           else Except.ok (x :: rest, accumulate (resetPairs c (dupPairs hashes)) 0 (x :: rest))) := by
        simp only [dupNext]
        rw [if_neg hp]
      cases hany : (dupPairs hashes).any (fun ab =>
          0 < accumulate (resetPairs c (dupPairs hashes)) 0 (x :: rest) ab.1 &&&
            accumulate (resetPairs c (dupPairs hashes)) 0 (x :: rest) ab.2) with
      | true =>
        refine ⟨⟨fun _ => hiff.mp hany, fun _ => ?_⟩, fun hnot => absurd (hiff.mp hany) hnot⟩
        rw [hred, if_pos hany]
      | false =>
        refine ⟨⟨fun h => ?_, fun hr => ?_⟩, fun hnot =>
          ⟨accumulate (resetPairs c (dupPairs hashes)) 0 (x :: rest), ?_⟩⟩
        · rw [hred, if_neg (by rw [hany]; exact Bool.false_ne_true)] at h
          exact Except.noConfusion h
        · have := hiff.mpr hr
          rw [hany] at this
          exact absurd this Bool.false_ne_true
        · rw [hred, if_neg (by rw [hany]; exact Bool.false_ne_true)]

/-- Projection of a `Next` result onto its error, if any. -/
def errOf {α : Type} : Except Err α → Option Err
  | Except.error e => some e
  | Except.ok _ => none

/-- C2 is false as stated: in a 64-step batch where the recorded
hash-collision pair has both series sampled only at batch position 63,
the `2 << 63` mask bit overflows to zero on the 64-bit mask and `Next`
forwards the batch instead of failing. -/
theorem dup_check_duplicate_label_counterexample :
    dupPairs [5, 5] = [(1, 0)] ∧
    (1 : Nat) ∈ ((List.replicate 63 (emptyStep 0) ++
      ([⟨1, [0, 1], [Val.q 1, Val.q 2], [], []⟩] : List StepVector)).getD 63 (emptyStep 0)).sampleIDs ∧
    (0 : Nat) ∈ ((List.replicate 63 (emptyStep 0) ++
      ([⟨1, [0, 1], [Val.q 1, Val.q 2], [], []⟩] : List StepVector)).getD 63 (emptyStep 0)).sampleIDs ∧
    errOf (dupNext [5, 5] (fun _ => 0) none (Except.ok (List.replicate 63 (emptyStep 0) ++
      ([⟨1, [0, 1], [Val.q 1, Val.q 2], [], []⟩] : List StepVector)))) = none :=
  ⟨by decide, by decide, by decide, by decide⟩

/-- Witness for C2 (amended) at a two-step batch: the colliding pair is
never alive at a common position, so `Next` forwards the batch. -/
theorem dup_check_duplicate_label_witness :
    (dupNext [7, 7] (fun _ => 0) none
        (Except.ok [⟨0, [0], [Val.q 1], [], []⟩, ⟨1, [1], [Val.q 2], [], []⟩]) =
          Except.error Err.duplicateLabelSet ↔
      ∃ ab ∈ dupPairs [7, 7], ∃ i,
        i < ([⟨0, [0], [Val.q 1], [], []⟩, ⟨1, [1], [Val.q 2], [], []⟩] : List StepVector).length ∧
        i < 63 ∧
        ab.1 ∈ (([⟨0, [0], [Val.q 1], [], []⟩, ⟨1, [1], [Val.q 2], [], []⟩] : List StepVector).getD i
          (emptyStep 0)).sampleIDs ∧
        ab.2 ∈ (([⟨0, [0], [Val.q 1], [], []⟩, ⟨1, [1], [Val.q 2], [], []⟩] : List StepVector).getD i
          (emptyStep 0)).sampleIDs) ∧
    ((¬∃ ab ∈ dupPairs [7, 7], ∃ i,
        i < ([⟨0, [0], [Val.q 1], [], []⟩, ⟨1, [1], [Val.q 2], [], []⟩] : List StepVector).length ∧
        i < 63 ∧
        ab.1 ∈ (([⟨0, [0], [Val.q 1], [], []⟩, ⟨1, [1], [Val.q 2], [], []⟩] : List StepVector).getD i
          (emptyStep 0)).sampleIDs ∧
        ab.2 ∈ (([⟨0, [0], [Val.q 1], [], []⟩, ⟨1, [1], [Val.q 2], [], []⟩] : List StepVector).getD i
          (emptyStep 0)).sampleIDs) →
      ∃ c2, dupNext [7, 7] (fun _ => 0) none
        (Except.ok [⟨0, [0], [Val.q 1], [], []⟩, ⟨1, [1], [Val.q 2], [], []⟩]) =
          Except.ok ([⟨0, [0], [Val.q 1], [], []⟩, ⟨1, [1], [Val.q 2], [], []⟩], c2)) :=
  dup_check_duplicate_label [7, 7] (fun _ => 0)
    [⟨0, [0], [Val.q 1], [], []⟩, ⟨1, [1], [Val.q 2], [], []⟩] (by decide)
